import Mathlib

/-!
Verification of the moodboard canvas interaction engine.

The definitions below are a shallow embedding of the TypeScript source
(`src/App.tsx`, `src/components/CanvasItemComp.tsx`, `src/types.ts`).
JavaScript numbers are modelled as rationals (`ℚ`), so arithmetic is exact;
the optional fields of the TypeScript interfaces are modelled as `Option`.
Randomness (ids, palette indices, AI scatter offsets) is modelled by passing
the drawn values as explicit parameters.
-/

namespace Moodboard

/-- `ItemType` from `src/types.ts`. -/
inductive ItemType where
  | text
  | image
  | todo
  | shape
  | drawing
deriving DecidableEq

/-- `Urgency` from `src/types.ts`. -/
inductive Urgency where
  | low
  | medium
  | high
deriving DecidableEq

/-- `Position` from `src/types.ts`. -/
structure Position where
  x : ℚ
  y : ℚ
deriving DecidableEq

/-- `TodoItem` from `src/types.ts`. -/
structure TodoItem where
  id : String
  text : String
  completed : Bool
  urgency : Urgency
deriving DecidableEq

/-- `DrawingPath` from `src/types.ts`: points are stored relative to `item.x, item.y`. -/
structure DrawingPath where
  points : List Position
  color : String
  strokeWidth : ℚ
deriving DecidableEq

/-- `Reaction` from `src/types.ts`. -/
structure Reaction where
  emoji : String
  count : ℤ
deriving DecidableEq

/-- Shape kind from `src/types.ts` (`'rectangle' | 'circle'`). -/
inductive ShapeKind where
  | rectangle
  | circle
deriving DecidableEq

/-- `CanvasItem` from `src/types.ts`. -/
structure CanvasItem where
  id : String
  type : ItemType
  x : ℚ
  y : ℚ
  width : ℚ
  height : ℚ
  content : Option String := none
  todos : Option (List TodoItem) := none
  color : Option String := none
  textColor : Option String := none
  fontFamily : Option String := none
  fontWeight : Option String := none
  fontStyle : Option String := none
  opacity : Option ℚ := none
  shapeType : Option ShapeKind := none
  drawingData : Option (List DrawingPath) := none
  zIndex : ℚ
  reactions : Option (List Reaction) := none
deriving DecidableEq

/-- `Connection` from `src/types.ts`. -/
structure Connection where
  id : String
  fromId : String
  toId : String
  color : String
deriving DecidableEq

/-- `AppState` from `src/types.ts`: the board document. -/
structure AppState where
  items : List CanvasItem
  connections : List Connection
  pan : Position
  scale : ℚ
  selectedIds : List String
  selectionBox : Option (Position × Position) := none
deriving DecidableEq

/-- The viewport part of the state: pan offset and scale. -/
structure Viewport where
  pan : Position
  scale : ℚ
deriving DecidableEq

/-! ## Coordinate transforms

`App.tsx` converts screen to world coordinates as
`(e.clientX - state.pan.x) / state.scale` (e.g. `handleMouseDown`,
lines 410-412), and renders the canvas with the CSS transform
`translate(pan) scale(scale)` (line 1055), i.e. `screen = world * scale + pan`. -/

/-- Screen-to-world map used throughout `App.tsx`: `(p - pan) / scale`. -/
def screenToWorld (p : Position) (v : Viewport) : Position :=
  ⟨(p.x - v.pan.x) / v.scale, (p.y - v.pan.y) / v.scale⟩

/-- World-to-screen map realised by the canvas CSS transform
`translate(pan.x, pan.y) scale(scale)`: `world * scale + pan`. -/
def worldToScreen (w : Position) (v : Viewport) : Position :=
  ⟨w.x * v.scale + v.pan.x, w.y * v.scale + v.pan.y⟩

/-! ## Wheel zoom (`handleWheel`, App.tsx lines 384-402)

`zoomFactor = Math.exp(-e.deltaY * 0.001)` is an opaque positive real; it is
passed here as the parameter `zoomFactor`. The new scale is clamped to
`[0.1, 5]` exactly as in `Math.min(Math.max(0.1, state.scale * zoomFactor), 5)`. -/

/-- One wheel-zoom update: returns the new viewport computed by `handleWheel`. -/
def wheelZoom (v : Viewport) (zoomFactor : ℚ) (mouse : Position) : Viewport :=
  let newScale := min (max (1/10) (v.scale * zoomFactor)) 5
  let newPanX := mouse.x - ((mouse.x - v.pan.x) / v.scale) * newScale
  let newPanY := mouse.y - ((mouse.y - v.pan.y) / v.scale) * newScale
  ⟨⟨newPanX, newPanY⟩, newScale⟩

/-! ## Deleting items (`handleKeyDown`, App.tsx lines 135-150, and the
`onDelete` callback passed to `CanvasItemComp`, App.tsx lines 1066-1072) -/

/-- Keyboard Delete/Backspace on the current selection (`handleKeyDown`):
removes every selected item and every connection with a selected endpoint,
then clears the selection. Guarded by `selectedIds.length > 0` as in the code. -/
def deleteSelection (s : AppState) : AppState :=
  if s.selectedIds.length > 0 then
    { s with
      items := s.items.filter (fun i => !s.selectedIds.contains i.id),
      connections := s.connections.filter
        (fun c => !s.selectedIds.contains c.fromId && !s.selectedIds.contains c.toId),
      selectedIds := [] }
  else s

/-- The per-item delete control (`onDelete` in `App.tsx`): removes the item
with the given id and every connection touching it. -/
def deleteItem (s : AppState) (id : String) : AppState :=
  { s with
    items := s.items.filter (fun i => i.id != id),
    connections := s.connections.filter (fun c => c.fromId != id && c.toId != id) }

/-- `Math.max` on two numbers (NaN aside): the larger argument. -/
def jsMax (a b : ℚ) : ℚ := if a < b then b else a

/-- `Math.min` on two numbers (NaN aside): the smaller argument. -/
def jsMin (a b : ℚ) : ℚ := if b < a then b else a

/-! ## Resizing (`handleMouseMove`, resize branch, App.tsx lines 603-614)

Each move step converts the screen delta to world units by dividing by the
current scale and adds it to the active item's width and height, clamping
both with `Math.max(50, _)`. -/

/-- The per-item update of the resize branch: the item matching `activeId`
gets its width/height clamped with `max 50`, every other item is untouched. -/
def resizeItemUpdate (activeId : String) (dx dy scale : ℚ) (item : CanvasItem) :
    CanvasItem :=
  if item.id == activeId then
    { item with
      width := jsMax 50 (item.width + dx / scale),
      height := jsMax 50 (item.height + dy / scale) }
  else item

/-- One resize move step applied to the items list. -/
def resizeStep (items : List CanvasItem) (activeId : String) (dx dy scale : ℚ) :
    List CanvasItem :=
  items.map (resizeItemUpdate activeId dx dy scale)

/-- A whole resize gesture: the fold of `resizeStep` over the move steps'
screen deltas. -/
def resizeGesture (items : List CanvasItem) (activeId : String)
    (deltas : List (ℚ × ℚ)) (scale : ℚ) : List CanvasItem :=
  deltas.foldl (fun acc d => resizeStep acc activeId d.1 d.2 scale) items

/-- One resize move step as the full `setState` update in `handleMouseMove`:
only the `items` field of the document changes. -/
def resizeMouseMove (s : AppState) (activeId : String) (dx dy : ℚ) : AppState :=
  { s with items := resizeStep s.items activeId dx dy s.scale }

/-! ## Connect gesture commit (`handleMouseUp`, App.tsx lines 623-652) -/

/-- The fixed connection color palette `COLORS` of App.tsx. -/
def COLORS : List String := ["#FF6B6B", "#4ECDC4", "#45B7D1", "#96CEB4", "#FFEEAD"]

/-- The bounding-box hit test of `handleMouseUp`: the first item in document
order, other than the source item, whose axis-aligned bounding box contains
the release point. -/
def hitTest (items : List CanvasItem) (activeId : String) (mouseX mouseY : ℚ) :
    Option CanvasItem :=
  items.find? fun item =>
    item.id != activeId &&
    decide (item.x ≤ mouseX) && decide (mouseX ≤ item.x + item.width) &&
    decide (item.y ≤ mouseY) && decide (mouseY ≤ item.y + item.height)

/-- The connect-gesture commit of `handleMouseUp`: append one connection when
the hit test finds a target, otherwise leave the connections unchanged. The
fresh connection id and the random palette index (the code draws
`Math.floor(Math.random() * COLORS.length)`) are passed in as parameters. -/
def connectUp (items : List CanvasItem) (connections : List Connection)
    (activeId : String) (mouseX mouseY : ℚ) (newId : String) (colorIdx : ℕ) :
    List Connection :=
  match hitTest items activeId mouseX mouseY with
  | some target =>
      connections ++
        [⟨newId, activeId, target.id, COLORS.getD (colorIdx % COLORS.length) ""⟩]
  | none => connections

/-! ## Reactions (`handleEmojiSelect`, reaction case, App.tsx lines 345-366;
`handleReactionClick`, CanvasItemComp.tsx lines 68-84) -/

/-- Adding a reaction emoji to an item (`handleEmojiSelect`, reaction case):
an existing entry for the emoji is incremented, otherwise a new entry with
count 1 is appended (`item.reactions || []` is the `getD []`). -/
def addReaction (item : CanvasItem) (emoji : String) : CanvasItem :=
  match (item.reactions.getD []).find? (fun r => r.emoji == emoji) with
  | some _ =>
      { item with
        reactions := some ((item.reactions.getD []).map fun r =>
          if r.emoji == emoji then { r with count := r.count + 1 } else r) }
  | none =>
      { item with reactions := some (item.reactions.getD [] ++ [⟨emoji, 1⟩]) }

/-- Clicking a reaction badge (`handleReactionClick`): no entry for the emoji
is a no-op; an entry with count above 1 is decremented; an entry whose count
is not above 1 is filtered out. -/
def removeReaction (item : CanvasItem) (emoji : String) : CanvasItem :=
  match (item.reactions.getD []).find? (fun r => r.emoji == emoji) with
  | none => item
  | some target =>
      if target.count > 1 then
        { item with
          reactions := some ((item.reactions.getD []).map fun r =>
            if r.emoji == emoji then { r with count := r.count - 1 } else r) }
      else
        { item with
          reactions := some ((item.reactions.getD []).filter fun r =>
            r.emoji != emoji) }

/-! ## Move gesture (`handleItemMouseDown`, App.tsx lines 463-499;
`handleMouseMove`, move branch, lines 589-602) -/

/-- The containment test of the shape-children snapshot: `other`'s bounding
box lies fully inside `shape`'s bounding box (boundaries included). -/
def boxContained (other shape : CanvasItem) : Bool :=
  decide (shape.x ≤ other.x) &&
  decide (other.x + other.width ≤ shape.x + shape.width) &&
  decide (shape.y ≤ other.y) &&
  decide (other.y + other.height ≤ shape.y + shape.height)

/-- The children snapshot taken at pointer-down of a move gesture: when the
grabbed item is a shape, the ids of all other items fully contained in its
bounding box; otherwise empty. -/
def movingChildren (items : List CanvasItem) (id : String) : List String :=
  match items.find? (fun i => i.id == id) with
  | some movedItem =>
      if movedItem.type = ItemType.shape then
        (items.filter fun other =>
          other.id != id && boxContained other movedItem).map (fun i => i.id)
      else []
  | none => []

/-- One move step: the active item and every snapshot child are translated
by the screen delta divided by the scale; every other item is untouched. -/
def moveStep (items : List CanvasItem) (activeId : String)
    (childIds : List String) (dx dy scale : ℚ) : List CanvasItem :=
  items.map fun item =>
    if item.id == activeId || childIds.contains item.id then
      { item with x := item.x + dx / scale, y := item.y + dy / scale }
    else item

/-- A whole move gesture: the children snapshot is computed once from the
state at pointer-down and every step folds over it unchanged. -/
def moveGesture (items : List CanvasItem) (id : String)
    (deltas : List (ℚ × ℚ)) (scale : ℚ) : List CanvasItem :=
  deltas.foldl
    (fun acc d => moveStep acc id (movingChildren items id) d.1 d.2 scale) items

/-! ## Freehand drawing (`handleMouseDown` pen branch, App.tsx lines
409-437; `handleMouseMove` draw branch, lines 504-548) -/

/-- Pointer-down with the pen tool: a fresh drawing item anchored at the
world down-point, zero extents, zIndex `items.length + 1`, and one path
holding the single zero point. -/
def penDownItem (nItems : ℕ) (startX startY : ℚ) (penColor newId : String) :
    CanvasItem :=
  { id := newId, type := ItemType.drawing, x := startX, y := startY,
    width := 0, height := 0, zIndex := (nItems : ℚ) + 1,
    drawingData := some [⟨[⟨0, 0⟩], penColor, 3⟩] }

/-- One draw move step on the active drawing item (`handleMouseMove`, draw
branch): append the pointer's item-local point to the last path, recompute
the tight bounds of that path's points starting from `0, 0, width, height`,
shift the origin by the negative excursions and re-express all points
relative to the shifted origin, atomically. -/
def drawStep (item : CanvasItem) (mouseX mouseY : ℚ) : CanvasItem :=
  match item.drawingData with
  | none => item
  | some paths =>
    match paths.getLast? with
    | none => item
    | some path =>
      let newPoint : Position := ⟨mouseX - item.x, mouseY - item.y⟩
      let newPoints := path.points ++ [newPoint]
      let minX := newPoints.foldl (fun m p => if p.x < m then p.x else m) 0
      let minY := newPoints.foldl (fun m p => if p.y < m then p.y else m) 0
      let maxX := newPoints.foldl (fun m p => if m < p.x then p.x else m) item.width
      let maxY := newPoints.foldl (fun m p => if m < p.y then p.y else m) item.height
      let shiftX := if minX < 0 then minX else 0
      let shiftY := if minY < 0 then minY else 0
      let adjustedPoints := newPoints.map fun p =>
        (⟨p.x - shiftX, p.y - shiftY⟩ : Position)
      { item with
        x := item.x + shiftX,
        y := item.y + shiftY,
        width := if maxX - minX = 0 then 1 else maxX - minX,
        height := if maxY - minY = 0 then 1 else maxY - minY,
        drawingData :=
          some (paths.dropLast ++ [{ path with points := adjustedPoints }]) }

/-- A whole pen gesture: pointer-down then a fold of draw steps over the
pointer's world positions. -/
def drawGesture (nItems : ℕ) (startX startY : ℚ) (penColor newId : String)
    (moves : List Position) : CanvasItem :=
  moves.foldl (fun it m => drawStep it m.x m.y)
    (penDownItem nItems startX startY penColor newId)

/-! ## Item creation (`addItem`, App.tsx lines 273-315; pen pointer-down,
lines 414-427; `handleAiGenerate`, lines 716-728) -/

/-- `Math.max(...items.map(i => i.zIndex))` behind the `length > 0` guard:
the running maximum of the z-indices, `0` for an empty board. -/
def maxZOf (items : List CanvasItem) : ℚ :=
  match items.map (fun i => i.zIndex) with
  | [] => 0
  | z :: zs => zs.foldl jsMax z

/-- `Math.min(...items.map(i => i.zIndex))` behind the `length > 0` guard. -/
def minZOf (items : List CanvasItem) : ℚ :=
  match items.map (fun i => i.zIndex) with
  | [] => 0
  | z :: zs => zs.foldl jsMin z

/-- The new item built by `addItem`: fresh id, centred on the viewport,
type-dependent default extents (width/height/content overridable by the call
site's extras, the zIndex never), and zIndex `minZ - 1` for shapes,
`maxZ + 1` for everything else. -/
def addItemNew (s : AppState) (ty : ItemType) (newId : String)
    (winW winH : ℚ) (exContent : Option String) (exW exH : Option ℚ) :
    CanvasItem :=
  { id := newId, type := ty,
    x := (-s.pan.x + winW / 2) / s.scale - 100,
    y := (-s.pan.y + winH / 2) / s.scale - 75,
    width := exW.getD (if ty = ItemType.shape ∨ ty = ItemType.image then 200 else 250),
    height := exH.getD (if ty = ItemType.shape ∨ ty = ItemType.image then 200 else 180),
    zIndex := if ty = ItemType.shape then minZOf s.items - 1 else maxZOf s.items + 1,
    content := some (exContent.getD ""),
    color := if ty = ItemType.shape then some "#e2e8f0" else none,
    shapeType := some ShapeKind.rectangle,
    opacity := some 1,
    todos := if ty = ItemType.todo then
        some [⟨"1", "Define goals", false, Urgency.high⟩,
          ⟨"2", "Gather inspiration", false, Urgency.low⟩]
      else none }

/-- `addItem` (used by the toolbar buttons and the emoji sticker): append
the new item and select it. -/
def addItem (s : AppState) (ty : ItemType) (newId : String) (winW winH : ℚ)
    (exContent : Option String) (exW exH : Option ℚ) : AppState :=
  { s with
    items := s.items ++ [addItemNew s ty newId winW winH exContent exW exH],
    selectedIds := [newId] }

/-- The text items inserted by `handleAiGenerate` for a list of ideas: the
`idx`-th gets zIndex `items.length + idx + 1`; the random scatter offsets
and fresh ids are passed in as functions of the index. -/
def aiNewItems (s : AppState) (ideas : List String) (idsF : ℕ → String)
    (offF : ℕ → ℚ × ℚ) (winW winH : ℚ) : List CanvasItem :=
  ideas.enum.map fun p =>
    { id := idsF p.1, type := ItemType.text,
      x := (-s.pan.x + winW / 2) / s.scale + (offF p.1).1,
      y := (-s.pan.y + winH / 2) / s.scale + (offF p.1).2,
      width := 200, height := 150,
      zIndex := (s.items.length : ℚ) + p.1 + 1,
      content := some p.2,
      textColor := some "#1f2937" }

/-- Proof-side invariant for draw gestures: the item carries exactly one
path and all its stored points are componentwise non-negative. -/
def goodDraw (st : CanvasItem) : Prop :=
  ∃ pts c sw, st.drawingData = some [⟨pts, c, sw⟩] ∧
    ∀ p ∈ pts, 0 ≤ p.x ∧ 0 ≤ p.y

/-- Proof-side invariant for reaction sequences: the item's reaction list is
the original list, or the original list with a single trailing entry for the
given emoji whose count is at least 1. -/
def GoodRe (orig : List Reaction) (e : String) (st : CanvasItem) : Prop :=
  st.reactions.getD [] = orig ∨
    ∃ k : ℤ, 1 ≤ k ∧ st.reactions.getD [] = orig ++ [⟨e, k⟩]

/-- A concrete item for sanity checks and witnesses. -/
def mkItem (id : String) (ty : ItemType) (x y w h z : ℚ) : CanvasItem :=
  { id := id, type := ty, x := x, y := y, width := w, height := h, zIndex := z }

/-- A concrete board document: item `a` selected, one connection out of `a`. -/
def sampleDoc : AppState :=
  { items := [mkItem "a" ItemType.text 0 0 250 180 1, mkItem "b" ItemType.text 400 0 250 180 2],
    connections := [⟨"c1", "a", "b", "#FF6B6B"⟩],
    pan := ⟨0, 0⟩,
    scale := 1,
    selectedIds := ["a"],
    selectionBox := none }

end Moodboard

namespace Moodboard

/-- C1: deleting an item id `X`, whether through the keyboard delete of the
selection (with `X` selected) or through the item's delete control, removes
every connection whose `fromId` or `toId` equals `X`; after a keyboard delete
no remaining connection references any deleted (selected) item. -/
theorem cascade_delete (s : AppState) (X : String) :
    (X ∈ s.selectedIds →
      ∀ c ∈ (deleteSelection s).connections, c.fromId ≠ X ∧ c.toId ≠ X) ∧
    (∀ c ∈ (deleteSelection s).connections,
      c.fromId ∉ s.selectedIds ∧ c.toId ∉ s.selectedIds) ∧
    (∀ c ∈ (deleteItem s X).connections, c.fromId ≠ X ∧ c.toId ≠ X) ∧
    (∀ i ∈ (deleteItem s X).items, i.id ≠ X) := by
  refine ⟨?_, ?_, ?_, ?_⟩
  · intro hX c hc
    unfold deleteSelection at hc
    by_cases hsel : s.selectedIds.length > 0
    · simp only [hsel, if_pos] at hc
      have := List.of_mem_filter hc
      simp only [List.contains, Bool.and_eq_true, Bool.not_eq_true', List.elem_eq_mem,
        decide_eq_false_iff_not] at this
      exact ⟨fun h => this.1 (h ▸ hX), fun h => this.2 (h ▸ hX)⟩
    · exact absurd (List.length_pos.mpr (List.ne_nil_of_mem hX)) hsel
  · intro c hc
    unfold deleteSelection at hc
    by_cases hsel : s.selectedIds.length > 0
    · simp only [hsel, if_pos] at hc
      have := List.of_mem_filter hc
      simp only [List.contains, Bool.and_eq_true, Bool.not_eq_true', List.elem_eq_mem,
        decide_eq_false_iff_not] at this
      exact this
    · have hnil : s.selectedIds = [] :=
        List.eq_nil_of_length_eq_zero (Nat.eq_zero_of_not_pos hsel)
      simp [hnil]
  · intro c hc
    have := List.of_mem_filter hc
    simp only [Bool.and_eq_true, bne_iff_ne, ne_eq] at this
    exact this
  · intro i hi
    have := List.of_mem_filter hi
    simpa [bne_iff_ne] using this

/-- Witness for C1: on `sampleDoc`, both delete paths leave no connection
touching the deleted id `a`. -/
theorem cascade_delete_witness :
    (∀ c ∈ (deleteSelection sampleDoc).connections, c.fromId ≠ "a" ∧ c.toId ≠ "a") ∧
    (∀ c ∈ (deleteItem sampleDoc "a").connections, c.fromId ≠ "a" ∧ c.toId ≠ "a") := by
  have h := cascade_delete sampleDoc "a"
  exact ⟨h.1 (by decide), h.2.2.1⟩

/-- C2: for every viewport with nonzero scale, `screenToWorld` and
`worldToScreen` are exact inverses in both composition orders. -/
theorem screen_world_round_trip (p : Position) (v : Viewport) (hs : v.scale ≠ 0) :
    worldToScreen (screenToWorld p v) v = p ∧ screenToWorld (worldToScreen p v) v = p := by
  obtain ⟨px, py⟩ := p
  obtain ⟨⟨panx, pany⟩, s⟩ := v
  simp only [screenToWorld, worldToScreen, Position.mk.injEq] at *
  constructor
  · constructor <;> field_simp
  · constructor <;> field_simp

/-- Witness for C2 at the concrete viewport `pan = (3, -7)`, `scale = 2`,
point `p = (5, 11)`. -/
theorem screen_world_round_trip_witness :
    worldToScreen (screenToWorld ⟨5, 11⟩ ⟨⟨3, -7⟩, 2⟩) ⟨⟨3, -7⟩, 2⟩ = (⟨5, 11⟩ : Position) ∧
    screenToWorld (worldToScreen ⟨5, 11⟩ ⟨⟨3, -7⟩, 2⟩) ⟨⟨3, -7⟩, 2⟩ = (⟨5, 11⟩ : Position) :=
  screen_world_round_trip ⟨5, 11⟩ ⟨⟨3, -7⟩, 2⟩ (by norm_num)

/-- C3: a wheel zoom at screen point `mouse` leaves the world point under
`mouse` unchanged: `screenToWorld mouse` agrees before and after the update. -/
theorem zoom_pivot (v : Viewport) (zoomFactor : ℚ) (mouse : Position)
    (hs : v.scale ≠ 0) :
    screenToWorld mouse (wheelZoom v zoomFactor mouse) = screenToWorld mouse v := by
  obtain ⟨⟨panx, pany⟩, s⟩ := v
  obtain ⟨mx, my⟩ := mouse
  simp only [Viewport.mk.injEq] at hs ⊢
  have hns : (0 : ℚ) < min (max (1/10) (s * zoomFactor)) 5 :=
    lt_min (lt_of_lt_of_le (by norm_num) (le_max_left _ _)) (by norm_num)
  simp only [wheelZoom, screenToWorld, Position.mk.injEq]
  constructor <;> (field_simp; ring)

/-- Witness for C3 at viewport `pan = (0,0)`, `scale = 1`, zoom factor `2`,
mouse point `(100, 50)`. -/
theorem zoom_pivot_witness :
    screenToWorld ⟨100, 50⟩ (wheelZoom ⟨⟨0, 0⟩, 1⟩ 2 ⟨100, 50⟩) =
      screenToWorld ⟨100, 50⟩ ⟨⟨0, 0⟩, 1⟩ :=
  zoom_pivot ⟨⟨0, 0⟩, 1⟩ 2 ⟨100, 50⟩ (by norm_num)


/-- `jsMax` is bounded below by its first argument. -/
theorem le_jsMax_left (a b : ℚ) : a ≤ jsMax a b := by
  unfold jsMax
  split <;> [exact le_of_lt (by assumption); exact le_refl a]

/-- Every item of a `resizeStep` output whose id is the active id satisfies
the 50-unit floor on width and height. -/
theorem resizeStep_floor (items : List CanvasItem) (activeId : String)
    (dx dy scale : ℚ) :
    ∀ i ∈ resizeStep items activeId dx dy scale,
      i.id = activeId → 50 ≤ i.width ∧ 50 ≤ i.height := by
  intro i hi hid
  simp only [resizeStep, List.mem_map] at hi
  obtain ⟨j, hj, rfl⟩ := hi
  unfold resizeItemUpdate at hid ⊢
  by_cases h : j.id == activeId
  · simp only [h, if_pos]
    exact ⟨le_jsMax_left _ _, le_jsMax_left _ _⟩
  · simp only [Bool.not_eq_true] at h
    simp only [h, Bool.false_eq_true, if_neg, not_false_eq_true] at hid
    exact absurd hid (by simpa using h)

/-- The 50-unit floor property is preserved by the rest of a resize gesture. -/
theorem resizeGesture_floor (activeId : String) (deltas : List (ℚ × ℚ))
    (scale : ℚ) :
    ∀ items : List CanvasItem,
      (∀ i ∈ items, i.id = activeId → 50 ≤ i.width ∧ 50 ≤ i.height) →
      ∀ i ∈ resizeGesture items activeId deltas scale,
        i.id = activeId → 50 ≤ i.width ∧ 50 ≤ i.height := by
  induction deltas with
  | nil => intro items h; simpa [resizeGesture] using h
  | cons d ds ih =>
    intro items _ i hi hid
    exact ih (resizeStep items activeId d.1 d.2 scale)
      (resizeStep_floor items activeId d.1 d.2 scale) i hi hid

/-- C8: after every step of a resize gesture (any number of steps with
arbitrary deltas, at least one step taken), the active item's width and
height are both at least 50 world units. -/
theorem resize_floor (items : List CanvasItem) (activeId : String)
    (d : ℚ × ℚ) (ds : List (ℚ × ℚ)) (scale : ℚ) :
    ∀ i ∈ resizeGesture items activeId (d :: ds) scale,
      i.id = activeId → 50 ≤ i.width ∧ 50 ≤ i.height := by
  intro i hi hid
  exact resizeGesture_floor activeId ds scale
    (resizeStep items activeId d.1 d.2 scale)
    (resizeStep_floor items activeId d.1 d.2 scale) i hi hid

/-- Witness for C8: a single resize step with delta `(-1000, -1000)` at
scale 1 on a `250 × 180` item clamps it to `50 × 50`. -/
theorem resize_floor_witness :
    50 ≤ (mkItem "a" ItemType.text 0 0 50 50 1).width ∧
    50 ≤ (mkItem "a" ItemType.text 0 0 50 50 1).height :=
  resize_floor [mkItem "a" ItemType.text 0 0 250 180 1] "a" (-1000, -1000) [] 1
    (mkItem "a" ItemType.text 0 0 50 50 1)
    (by norm_num [resizeGesture, resizeStep, resizeItemUpdate, mkItem, jsMax]) rfl

/-- C10: a resize move step changes only the active item's width and height.
The document's connections, pan, scale, selection and selection box are
unchanged; the items list is a pointwise map in which every item keeps its
position, id, type, zIndex and payload, non-active items are untouched, and
the active item's new extents are exactly the clamped values. -/
theorem resize_frame_effect (s : AppState) (activeId : String) (dx dy : ℚ) :
    (resizeMouseMove s activeId dx dy).connections = s.connections ∧
    (resizeMouseMove s activeId dx dy).pan = s.pan ∧
    (resizeMouseMove s activeId dx dy).scale = s.scale ∧
    (resizeMouseMove s activeId dx dy).selectedIds = s.selectedIds ∧
    (resizeMouseMove s activeId dx dy).selectionBox = s.selectionBox ∧
    (resizeMouseMove s activeId dx dy).items =
      s.items.map (resizeItemUpdate activeId dx dy s.scale) ∧
    (∀ i : CanvasItem, i.id ≠ activeId →
      resizeItemUpdate activeId dx dy s.scale i = i) ∧
    (∀ i : CanvasItem,
      (resizeItemUpdate activeId dx dy s.scale i).x = i.x ∧
      (resizeItemUpdate activeId dx dy s.scale i).y = i.y ∧
      (resizeItemUpdate activeId dx dy s.scale i).id = i.id ∧
      (resizeItemUpdate activeId dx dy s.scale i).type = i.type ∧
      (resizeItemUpdate activeId dx dy s.scale i).zIndex = i.zIndex ∧
      (resizeItemUpdate activeId dx dy s.scale i).content = i.content ∧
      (resizeItemUpdate activeId dx dy s.scale i).todos = i.todos ∧
      (resizeItemUpdate activeId dx dy s.scale i).color = i.color ∧
      (resizeItemUpdate activeId dx dy s.scale i).shapeType = i.shapeType ∧
      (resizeItemUpdate activeId dx dy s.scale i).drawingData = i.drawingData ∧
      (resizeItemUpdate activeId dx dy s.scale i).reactions = i.reactions) ∧
    (∀ i : CanvasItem, i.id = activeId →
      (resizeItemUpdate activeId dx dy s.scale i).width =
        jsMax 50 (i.width + dx / s.scale) ∧
      (resizeItemUpdate activeId dx dy s.scale i).height =
        jsMax 50 (i.height + dy / s.scale)) := by
  refine ⟨rfl, rfl, rfl, rfl, rfl, rfl, ?_, ?_, ?_⟩
  · intro i hid
    simp [resizeItemUpdate, hid]
  · intro i
    unfold resizeItemUpdate
    by_cases h : i.id == activeId <;> simp [h]
  · intro i hid
    simp [resizeItemUpdate, hid]

/-- Witness for C10 on `sampleDoc`: the non-active item `b` is untouched and
the active item `a` gets exactly the clamped extents. -/
theorem resize_frame_effect_witness :
    resizeItemUpdate "a" 10 5 sampleDoc.scale
      (mkItem "b" ItemType.text 400 0 250 180 2) =
      mkItem "b" ItemType.text 400 0 250 180 2 ∧
    (resizeItemUpdate "a" 10 5 sampleDoc.scale
      (mkItem "a" ItemType.text 0 0 250 180 1)).width =
      jsMax 50 ((mkItem "a" ItemType.text 0 0 250 180 1).width + 10 / sampleDoc.scale) :=
  ⟨(resize_frame_effect sampleDoc "a" 10 5).2.2.2.2.2.2.1
      (mkItem "b" ItemType.text 400 0 250 180 2) (by decide),
   ((resize_frame_effect sampleDoc "a" 10 5).2.2.2.2.2.2.2.2
      (mkItem "a" ItemType.text 0 0 250 180 1) (by decide)).1⟩


/-- `List.find?` returns the first match: the list splits around the result,
with the predicate false on everything before it. -/
theorem find?_first_match {α : Type} (p : α → Bool) :
    ∀ (l : List α) (x : α), l.find? p = some x →
      p x = true ∧ ∃ l₁ l₂, l = l₁ ++ x :: l₂ ∧ ∀ y ∈ l₁, p y = false := by
  intro l
  induction l with
  | nil => intro x h; simp [List.find?] at h
  | cons a as ih =>
    intro x h
    by_cases ha : p a
    · rw [List.find?_cons_of_pos _ ha, Option.some.injEq] at h
      subst h
      exact ⟨ha, [], as, rfl, by simp⟩
    · rw [List.find?_cons_of_neg _ (by simpa using ha)] at h
      obtain ⟨hp, l₁, l₂, hsplit, hall⟩ := ih x h
      refine ⟨hp, a :: l₁, l₂, by rw [hsplit, List.cons_append], ?_⟩
      intro y hy
      rcases List.mem_cons.mp hy with rfl | hy
      · simpa using ha
      · exact hall y hy

/-- C7: the connect gesture commit. If the hit test finds a target, the
target is the first item in document order other than the source whose
bounding box contains the release point, exactly one connection from the
source to it is appended, and its color comes from the fixed palette; if the
hit test finds nothing, the connections are unchanged (silent no-op). -/
theorem connect_commit (items : List CanvasItem) (connections : List Connection)
    (activeId : String) (mouseX mouseY : ℚ) (newId : String) (colorIdx : ℕ) :
    (∀ target, hitTest items activeId mouseX mouseY = some target →
      (target.id ≠ activeId ∧ target.x ≤ mouseX ∧ mouseX ≤ target.x + target.width ∧
        target.y ≤ mouseY ∧ mouseY ≤ target.y + target.height) ∧
      (∃ l₁ l₂, items = l₁ ++ target :: l₂ ∧
        ∀ u ∈ l₁, ¬(u.id ≠ activeId ∧ u.x ≤ mouseX ∧ mouseX ≤ u.x + u.width ∧
          u.y ≤ mouseY ∧ mouseY ≤ u.y + u.height)) ∧
      connectUp items connections activeId mouseX mouseY newId colorIdx =
        connections ++
          [⟨newId, activeId, target.id, COLORS.getD (colorIdx % COLORS.length) ""⟩] ∧
      COLORS.getD (colorIdx % COLORS.length) "" ∈ COLORS) ∧
    (hitTest items activeId mouseX mouseY = none →
      connectUp items connections activeId mouseX mouseY newId colorIdx =
        connections) := by
  constructor
  · intro target ht
    obtain ⟨hp, l₁, l₂, hsplit, hall⟩ := find?_first_match _ items target ht
    simp only [Bool.and_eq_true, bne_iff_ne, ne_eq, decide_eq_true_eq] at hp
    refine ⟨⟨hp.1.1.1.1, hp.1.1.1.2, hp.1.1.2, hp.1.2, hp.2⟩, ⟨l₁, l₂, hsplit, ?_⟩, ?_, ?_⟩
    · intro u hu
      have := hall u hu
      simp only [Bool.and_eq_true, bne_iff_ne, ne_eq, decide_eq_true_eq,
        Bool.and_eq_false_iff] at this
      intro hcontra
      obtain ⟨h1, h2, h3, h4, h5⟩ := hcontra
      rcases this with (((h | h) | h) | h) | h
      · simp only [bne_eq_false_iff_eq] at h
        exact h1 h
      · rw [decide_eq_false_iff_not] at h; exact h h2
      · rw [decide_eq_false_iff_not] at h; exact h h3
      · rw [decide_eq_false_iff_not] at h; exact h h4
      · rw [decide_eq_false_iff_not] at h; exact h h5
    · unfold connectUp
      rw [ht]
    · have hlen : colorIdx % COLORS.length < COLORS.length :=
        Nat.mod_lt _ (by norm_num [COLORS])
      rw [List.getD_eq_getElem?_getD, List.getElem?_eq_getElem hlen]
      simp only [Option.getD_some]
      exact List.getElem_mem hlen
  · intro hnone
    unfold connectUp
    rw [hnone]

/-- Witness for C7: on a two-item document, releasing at `(350, 50)` over
item `b` appends exactly one connection from `a` to `b` with the palette
color at index 2; releasing far away at `(10000, 10000)` is a no-op. -/
theorem connect_commit_witness :
    connectUp [mkItem "a" ItemType.text 0 0 100 100 1, mkItem "b" ItemType.text 300 0 100 100 2]
        [] "a" 350 50 "c9" 2 =
      [⟨"c9", "a", "b", COLORS.getD (2 % COLORS.length) ""⟩] ∧
    connectUp [mkItem "a" ItemType.text 0 0 100 100 1, mkItem "b" ItemType.text 300 0 100 100 2]
        [] "a" 10000 10000 "c9" 2 = [] := by
  constructor
  · have h := (connect_commit
      [mkItem "a" ItemType.text 0 0 100 100 1, mkItem "b" ItemType.text 300 0 100 100 2]
      [] "a" 350 50 "c9" 2).1 (mkItem "b" ItemType.text 300 0 100 100 2)
      (by norm_num [hitTest, mkItem, List.find?]; rfl)
    simpa [mkItem] using h.2.2.1
  · exact (connect_commit
      [mkItem "a" ItemType.text 0 0 100 100 1, mkItem "b" ItemType.text 300 0 100 100 2]
      [] "a" 10000 10000 "c9" 2).2
      (by norm_num [hitTest, mkItem, List.find?])


/-- `find?` over a reaction list none of whose entries carry the emoji
returns nothing. -/
theorem find?_emoji_none (l : List Reaction) (e : String)
    (h : ∀ r ∈ l, r.emoji ≠ e) : l.find? (fun r => r.emoji == e) = none :=
  List.find?_eq_none.mpr fun r hr => by simpa using h r hr

/-- `find?` skips a prefix on which it returns nothing. -/
theorem find?_append_of_none {α : Type} (p : α → Bool) (l₁ l₂ : List α)
    (h : l₁.find? p = none) : (l₁ ++ l₂).find? p = l₂.find? p := by
  induction l₁ with
  | nil => simp
  | cons a as ih =>
    by_cases hpa : p a
    · rw [List.find?_cons_of_pos _ hpa] at h
      exact absurd h (by simp)
    · rw [List.find?_cons_of_neg _ (by simpa using hpa)] at h
      rw [List.cons_append, List.find?_cons_of_neg _ (by simpa using hpa)]
      exact ih h

/-- Mapping an emoji-keyed update over entries that all miss the emoji is the
identity. -/
theorem map_emoji_untouched (l : List Reaction) (e : String)
    (g : Reaction → Reaction) (h : ∀ r ∈ l, r.emoji ≠ e) :
    (l.map fun r => if r.emoji == e then g r else r) = l := by
  induction l with
  | nil => rfl
  | cons a as ih =>
    have ha : (a.emoji == e) = false := by
      simpa using h a (List.mem_cons_self a as)
    rw [List.map_cons, if_neg (by simp [ha]),
      ih fun r hr => h r (List.mem_cons_of_mem a hr)]

/-- Filtering away an emoji from entries that all miss it is the identity. -/
theorem filter_ne_emoji_untouched (l : List Reaction) (e : String)
    (h : ∀ r ∈ l, r.emoji ≠ e) : (l.filter fun r => r.emoji != e) = l := by
  induction l with
  | nil => rfl
  | cons a as ih =>
    have ha : (a.emoji != e) = true := by
      simpa using h a (List.mem_cons_self a as)
    rw [List.filter_cons, if_pos ha,
      ih fun r hr => h r (List.mem_cons_of_mem a hr)]

/-- Filtering for an emoji among entries that all miss it gives nothing. -/
theorem filter_eq_emoji_nil (l : List Reaction) (e : String)
    (h : ∀ r ∈ l, r.emoji ≠ e) : (l.filter fun r => r.emoji == e) = [] := by
  induction l with
  | nil => rfl
  | cons a as ih =>
    have ha : (a.emoji == e) = false := by
      simpa using h a (List.mem_cons_self a as)
    rw [List.filter_cons, if_neg (by simp [ha]),
      ih fun r hr => h r (List.mem_cons_of_mem a hr)]

/-- Adding an emoji to an item with no entry for it appends a count-1 entry. -/
theorem addReaction_fresh (item : CanvasItem) (e : String) (orig : List Reaction)
    (hr : item.reactions.getD [] = orig) (h : ∀ r ∈ orig, r.emoji ≠ e) :
    (addReaction item e).reactions.getD [] = orig ++ [⟨e, 1⟩] := by
  unfold addReaction
  rw [hr, find?_emoji_none orig e h]
  rfl

/-- Adding an emoji to an item whose list ends with the sole entry for it
increments that entry's count. -/
theorem addReaction_existing (item : CanvasItem) (e : String) (orig : List Reaction)
    (k : ℤ) (hr : item.reactions.getD [] = orig ++ [⟨e, k⟩])
    (h : ∀ r ∈ orig, r.emoji ≠ e) :
    (addReaction item e).reactions.getD [] = orig ++ [⟨e, k + 1⟩] := by
  unfold addReaction
  rw [hr, find?_append_of_none _ _ _ (find?_emoji_none orig e h),
    List.find?_cons_of_pos _ (by simp)]
  dsimp only
  simp only [Option.getD_some, List.map_append]
  rw [map_emoji_untouched orig e _ h]
  simp

/-- Removing an emoji an item has no entry for is a no-op. -/
theorem removeReaction_noop (item : CanvasItem) (e : String)
    (h : ∀ r ∈ item.reactions.getD [], r.emoji ≠ e) :
    removeReaction item e = item := by
  unfold removeReaction
  rw [find?_emoji_none _ e h]

/-- Removing an emoji whose sole trailing entry has count above 1 decrements
that entry. -/
theorem removeReaction_dec (item : CanvasItem) (e : String) (orig : List Reaction)
    (k : ℤ) (hr : item.reactions.getD [] = orig ++ [⟨e, k⟩])
    (h : ∀ r ∈ orig, r.emoji ≠ e) (hk : 1 < k) :
    (removeReaction item e).reactions.getD [] = orig ++ [⟨e, k - 1⟩] := by
  unfold removeReaction
  rw [hr, find?_append_of_none _ _ _ (find?_emoji_none orig e h),
    List.find?_cons_of_pos _ (by simp)]
  dsimp only
  rw [if_pos (show (1 : ℤ) < k from hk)]
  simp only [Option.getD_some, List.map_append]
  rw [map_emoji_untouched orig e _ h]
  simp

/-- Removing an emoji whose sole trailing entry has count not above 1 drops
the entry entirely. -/
theorem removeReaction_last (item : CanvasItem) (e : String) (orig : List Reaction)
    (k : ℤ) (hr : item.reactions.getD [] = orig ++ [⟨e, k⟩])
    (h : ∀ r ∈ orig, r.emoji ≠ e) (hk : ¬ 1 < k) :
    (removeReaction item e).reactions.getD [] = orig := by
  unfold removeReaction
  rw [hr, find?_append_of_none _ _ _ (find?_emoji_none orig e h),
    List.find?_cons_of_pos _ (by simp)]
  dsimp only
  rw [if_neg (show ¬ (1 : ℤ) < k from hk)]
  simp only [Option.getD_some, List.filter_append]
  rw [filter_ne_emoji_untouched orig e h]
  simp

/-- Iterated adds: `n + 1` adds of a fresh emoji produce the single trailing
entry with count `n + 1`. -/
theorem addReaction_iter (item : CanvasItem) (e : String) (orig : List Reaction)
    (hr : item.reactions.getD [] = orig) (h : ∀ r ∈ orig, r.emoji ≠ e) :
    ∀ n : ℕ, ((fun it => addReaction it e)^[n + 1] item).reactions.getD [] =
      orig ++ [⟨e, (n : ℤ) + 1⟩] := by
  intro n
  induction n with
  | zero => simpa using addReaction_fresh item e orig hr h
  | succ m ih =>
    rw [Function.iterate_succ_apply']
    have step := addReaction_existing ((fun it => addReaction it e)^[m + 1] item)
      e orig ((m : ℤ) + 1) ih h
    rw [step]
    have hcast : ((m + 1 : ℕ) : ℤ) + 1 = (m : ℤ) + 1 + 1 := by push_cast; ring
    rw [hcast]

/-- Iterated removes: `m + 1` removes of an emoji whose sole trailing entry
has count `m + 1` restore the original list. -/
theorem removeReaction_iter (e : String) (orig : List Reaction)
    (h : ∀ r ∈ orig, r.emoji ≠ e) :
    ∀ (m : ℕ) (item : CanvasItem),
      item.reactions.getD [] = orig ++ [⟨e, (m : ℤ) + 1⟩] →
      ((fun it => removeReaction it e)^[m + 1] item).reactions.getD [] = orig := by
  intro m
  induction m with
  | zero =>
    intro item hr
    simpa using removeReaction_last item e orig 1 (by simpa using hr) h (by norm_num)
  | succ p ih =>
    intro item hr
    rw [Function.iterate_succ_apply]
    apply ih
    have hcast : ((p + 1 : ℕ) : ℤ) + 1 = (p : ℤ) + 2 := by push_cast; ring
    rw [hcast] at hr
    have step := removeReaction_dec item e orig ((p : ℤ) + 2) hr h (by omega)
    rw [step]
    have hcast2 : (p : ℤ) + 2 - 1 = (p : ℤ) + 1 := by ring
    rw [hcast2]

/-- `GoodRe` is preserved by adding the emoji. -/
theorem goodRe_add (orig : List Reaction) (e : String)
    (h : ∀ r ∈ orig, r.emoji ≠ e) (st : CanvasItem) :
    GoodRe orig e st → GoodRe orig e (addReaction st e) := by
  rintro (hg | ⟨k, hk, hg⟩)
  · exact Or.inr ⟨1, le_refl 1, addReaction_fresh st e orig hg h⟩
  · exact Or.inr ⟨k + 1, by omega, addReaction_existing st e orig k hg h⟩

/-- `GoodRe` is preserved by removing the emoji. -/
theorem goodRe_remove (orig : List Reaction) (e : String)
    (h : ∀ r ∈ orig, r.emoji ≠ e) (st : CanvasItem) :
    GoodRe orig e st → GoodRe orig e (removeReaction st e) := by
  rintro (hg | ⟨k, hk, hg⟩)
  · left
    rw [removeReaction_noop st e (by rw [hg]; exact h)]
    exact hg
  · by_cases hk2 : 1 < k
    · exact Or.inr ⟨k - 1, by omega, removeReaction_dec st e orig k hg h hk2⟩
    · exact Or.inl (removeReaction_last st e orig k hg h hk2)

/-- In a `GoodRe` state all reaction counts are at least 1. -/
theorem goodRe_counts (orig : List Reaction) (e : String)
    (h1 : ∀ r ∈ orig, 1 ≤ r.count) (st : CanvasItem)
    (hg : GoodRe orig e st) : ∀ r ∈ st.reactions.getD [], 1 ≤ r.count := by
  rcases hg with hg | ⟨k, hk, hg⟩ <;> rw [hg] <;> intro r hr
  · exact h1 r hr
  · rcases List.mem_append.mp hr with hmem | hmem
    · exact h1 r hmem
    · rw [List.mem_singleton] at hmem
      subst hmem
      exact hk

/-- `GoodRe` survives any number of adds. -/
theorem goodRe_add_iter (orig : List Reaction) (e : String)
    (h : ∀ r ∈ orig, r.emoji ≠ e) (st : CanvasItem) (hg : GoodRe orig e st) :
    ∀ k : ℕ, GoodRe orig e ((fun it => addReaction it e)^[k] st) := by
  intro k
  induction k with
  | zero => simpa using hg
  | succ p ih =>
    rw [Function.iterate_succ_apply']
    exact goodRe_add orig e h _ ih

/-- `GoodRe` survives any number of removes. -/
theorem goodRe_remove_iter (orig : List Reaction) (e : String)
    (h : ∀ r ∈ orig, r.emoji ≠ e) (st : CanvasItem) (hg : GoodRe orig e st) :
    ∀ j : ℕ, GoodRe orig e ((fun it => removeReaction it e)^[j] st) := by
  intro j
  induction j with
  | zero => simpa using hg
  | succ p ih =>
    rw [Function.iterate_succ_apply']
    exact goodRe_remove orig e h _ ih

/-- C6: on an item with no entry for emoji `e` (and all counts at least 1),
adding `e` exactly `n ≥ 1` times yields exactly one entry for `e`, with count
`n`; then removing `e` `n` times leaves no entry for `e`; and after any
number of adds followed by any number of removes, every reaction entry's
count is at least 1 (no count-0 entry ever exists). -/
theorem reaction_counting (item : CanvasItem) (e : String) (n : ℕ)
    (h1 : ∀ r ∈ item.reactions.getD [], 1 ≤ r.count)
    (h2 : ∀ r ∈ item.reactions.getD [], r.emoji ≠ e)
    (hn : 1 ≤ n) :
    ((((fun it => addReaction it e)^[n] item).reactions.getD []).filter
        (fun r => r.emoji == e)) = [⟨e, (n : ℤ)⟩] ∧
    ((((fun it => removeReaction it e)^[n]
        ((fun it => addReaction it e)^[n] item)).reactions.getD []).filter
        (fun r => r.emoji == e)) = [] ∧
    (∀ k j : ℕ, ∀ r ∈ ((fun it => removeReaction it e)^[j]
        ((fun it => addReaction it e)^[k] item)).reactions.getD [], 1 ≤ r.count) := by
  obtain ⟨m, rfl⟩ : ∃ m, n = m + 1 := ⟨n - 1, by omega⟩
  have hadd := addReaction_iter item e (item.reactions.getD []) rfl h2 m
  refine ⟨?_, ?_, ?_⟩
  · rw [hadd, List.filter_append, filter_eq_emoji_nil _ e h2]
    simp only [List.nil_append, List.filter_cons, beq_self_eq_true, if_pos,
      List.filter_nil]
    push_cast
    simp
  · rw [removeReaction_iter e (item.reactions.getD []) h2 m _ hadd,
      filter_eq_emoji_nil _ e h2]
  · intro k j
    exact goodRe_counts (item.reactions.getD []) e h1 _
      (goodRe_remove_iter (item.reactions.getD []) e h2 _
        (goodRe_add_iter (item.reactions.getD []) e h2 item (Or.inl rfl) k) j)

/-- Witness for C6: two adds of "heart" on a fresh item give the single entry
with count 2. -/
theorem reaction_counting_witness :
    ((((fun it => addReaction it "heart")^[2]
        (mkItem "a" ItemType.text 0 0 250 180 1)).reactions.getD []).filter
        (fun r => r.emoji == "heart")) = [⟨"heart", (2 : ℤ)⟩] :=
  (reaction_counting (mkItem "a" ItemType.text 0 0 250 180 1) "heart" 2
    (by simp [mkItem]) (by simp [mkItem]) (by norm_num)).1


/-- With pairwise-distinct item ids, `find?` by an item's id returns that
item itself. -/
theorem find?_id_of_nodup (items : List CanvasItem) (S : CanvasItem)
    (hmem : S ∈ items) (hnodup : (items.map fun i => i.id).Nodup) :
    items.find? (fun i => i.id == S.id) = some S := by
  induction items with
  | nil => cases hmem
  | cons a as ih =>
    rw [List.map_cons, List.nodup_cons] at hnodup
    rcases List.mem_cons.mp hmem with rfl | hmem'
    · rw [List.find?_cons_of_pos _ (by simp)]
    · by_cases ha : a.id = S.id
      · exact absurd (ha ▸ List.mem_map_of_mem (fun i => i.id) hmem') hnodup.1
      · rw [List.find?_cons_of_neg _ (by simpa using ha)]
        exact ih hmem' hnodup.2

/-- Folding per-step translations over a fixed id predicate equals one
combined translation by the summed deltas. -/
theorem foldl_translate (p : String → Bool) (scale : ℚ) :
    ∀ (deltas : List (ℚ × ℚ)) (items : List CanvasItem),
      deltas.foldl (fun acc d => acc.map fun item =>
        if p item.id then
          { item with x := item.x + d.1 / scale, y := item.y + d.2 / scale }
        else item) items =
      items.map fun item =>
        if p item.id then
          { item with
            x := item.x + (deltas.map Prod.fst).sum / scale,
            y := item.y + (deltas.map Prod.snd).sum / scale }
        else item := by
  intro deltas
  induction deltas with
  | nil =>
    intro items
    simp only [List.foldl_nil, List.map_nil, List.sum_nil, zero_div, add_zero]
    refine Eq.symm (Eq.trans (List.map_congr_left fun a _ => ?_) (List.map_id items))
    split <;> rfl
  | cons d ds ih =>
    intro items
    rw [List.foldl_cons, ih, List.map_map, List.map_cons, List.map_cons,
      List.sum_cons, List.sum_cons, add_div, add_div]
    refine List.map_congr_left fun a _ => ?_
    by_cases hp : p a.id <;> simp [hp, add_assoc]

/-- C4: a move gesture started on a shape item `S` translates exactly `S`
and the items whose bounding box was fully contained in `S`'s box at gesture
start, all by the same summed world-space delta, and leaves every other item
untouched — containment is never re-evaluated during the gesture. -/
theorem children_move (items : List CanvasItem) (S : CanvasItem)
    (hmem : S ∈ items) (hnodup : (items.map fun i => i.id).Nodup)
    (hshape : S.type = ItemType.shape) (deltas : List (ℚ × ℚ)) (scale : ℚ) :
    moveGesture items S.id deltas scale =
      items.map fun i =>
        if i.id = S.id ∨ boxContained i S then
          { i with
            x := i.x + (deltas.map Prod.fst).sum / scale,
            y := i.y + (deltas.map Prod.snd).sum / scale }
        else i := by
  have hchild : movingChildren items S.id =
      (items.filter fun o => o.id != S.id && boxContained o S).map (fun i => i.id) := by
    unfold movingChildren
    rw [find?_id_of_nodup items S hmem hnodup]
    dsimp only
    rw [if_pos hshape]
  have hiff : ∀ i ∈ items,
      ((i.id == S.id || (movingChildren items S.id).contains i.id) = true) ↔
      (i.id = S.id ∨ boxContained i S) := by
    intro i hi
    rw [hchild]
    constructor
    · intro hb
      rcases Bool.or_eq_true_iff.mp hb with hb | hb
      · exact Or.inl (by simpa using hb)
      · simp only [List.contains, List.elem_eq_mem, decide_eq_true_eq,
          List.mem_map] at hb
        obtain ⟨o, ho, hoid⟩ := hb
        have hof := List.of_mem_filter ho
        have homem := List.mem_of_mem_filter ho
        have : o = i := List.inj_on_of_nodup_map hnodup homem hi hoid
        subst this
        simp only [Bool.and_eq_true] at hof
        exact Or.inr hof.2
    · intro hp
      rcases hp with hp | hp
      · exact Bool.or_eq_true_iff.mpr (Or.inl (by simpa using hp))
      · by_cases hid : i.id = S.id
        · exact Bool.or_eq_true_iff.mpr (Or.inl (by simpa using hid))
        · refine Bool.or_eq_true_iff.mpr (Or.inr ?_)
          simp only [List.contains, List.elem_eq_mem, decide_eq_true_eq,
            List.mem_map]
          exact ⟨i, List.mem_filter.mpr ⟨hi, by simp [hid, hp]⟩, rfl⟩
  unfold moveGesture moveStep
  rw [foldl_translate (fun x => x == S.id || (movingChildren items S.id).contains x)
    scale deltas items]
  refine List.map_congr_left fun a ha => ?_
  by_cases hc : a.id = S.id ∨ boxContained a S
  · rw [if_pos ((hiff a ha).mpr hc), if_pos hc]
  · rw [if_neg (fun hb => hc ((hiff a ha).mp hb)), if_neg hc]

/-- Witness for C4: the shape `s`, its contained item `c`, and the outside
item `o`; one move step by `(10, 20)` at scale 1 translates exactly `s` and
`c`. -/
theorem children_move_witness :
    moveGesture
        [mkItem "s" ItemType.shape 0 0 200 200 0, mkItem "c" ItemType.text 10 10 50 50 1,
          mkItem "o" ItemType.text 300 0 50 50 2]
        (mkItem "s" ItemType.shape 0 0 200 200 0).id [(10, 20)] 1 =
      [mkItem "s" ItemType.shape 0 0 200 200 0, mkItem "c" ItemType.text 10 10 50 50 1,
        mkItem "o" ItemType.text 300 0 50 50 2].map (fun i =>
        if i.id = (mkItem "s" ItemType.shape 0 0 200 200 0).id ∨
            boxContained i (mkItem "s" ItemType.shape 0 0 200 200 0) then
          { i with
            x := i.x + (([((10 : ℚ), (20 : ℚ))]).map Prod.fst).sum / 1,
            y := i.y + (([((10 : ℚ), (20 : ℚ))]).map Prod.snd).sum / 1 }
        else i) :=
  children_move _ _ (List.mem_cons_self _ _) (by decide) rfl [(10, 20)] 1


/-- A fold of the JS running-minimum step leaves the accumulator unchanged
when it is a lower bound of the traversed values. -/
theorem foldl_min_skip (f : Position → ℚ) (pts : List Position) :
    ∀ a : ℚ, (∀ p ∈ pts, a ≤ f p) →
      pts.foldl (fun m p => if f p < m then f p else m) a = a := by
  induction pts with
  | nil => intro a _; rfl
  | cons q qs ih =>
    intro a h
    rw [List.foldl_cons, if_neg (not_lt.mpr (h q (List.mem_cons_self q qs)))]
    exact ih a fun p hp => h p (List.mem_cons_of_mem q hp)

/-- Clamping `jsMin 0 v` against 0 again changes nothing. -/
theorem jsMin0_if (v : ℚ) :
    (if jsMin 0 v < 0 then jsMin 0 v else 0) = jsMin 0 v := by
  by_cases h : v < 0 <;> simp [jsMin, h]

/-- `jsMin 0 v` is never positive. -/
theorem jsMin0_nonpos (v : ℚ) : jsMin 0 v ≤ 0 := by
  unfold jsMin
  split_ifs with h <;> linarith

/-- `jsMin 0 v` is at most `v`. -/
theorem jsMin0_le (v : ℚ) : jsMin 0 v ≤ v := by
  unfold jsMin
  split_ifs with h <;> linarith

/-- One draw step preserves the single-path/non-negative-points invariant
and shifts the origin exactly by the componentwise negative excursion of the
newly appended relative point. -/
theorem drawStep_good (item : CanvasItem) (mx my : ℚ) (hg : goodDraw item) :
    goodDraw (drawStep item mx my) ∧
    (drawStep item mx my).x = item.x + jsMin 0 (mx - item.x) ∧
    (drawStep item mx my).y = item.y + jsMin 0 (my - item.y) := by
  obtain ⟨pts, c, sw, hdd, hpts⟩ := hg
  have hlast : ([⟨pts, c, sw⟩] : List DrawingPath).getLast? = some ⟨pts, c, sw⟩ := rfl
  have hminX : (pts ++ [(⟨mx - item.x, my - item.y⟩ : Position)]).foldl
      (fun m p => if p.x < m then p.x else m) 0 = jsMin 0 (mx - item.x) := by
    rw [List.foldl_append,
      foldl_min_skip (fun p => p.x) pts 0 (fun p hp => (hpts p hp).1)]
    rfl
  have hminY : (pts ++ [(⟨mx - item.x, my - item.y⟩ : Position)]).foldl
      (fun m p => if p.y < m then p.y else m) 0 = jsMin 0 (my - item.y) := by
    rw [List.foldl_append,
      foldl_min_skip (fun p => p.y) pts 0 (fun p hp => (hpts p hp).2)]
    rfl
  unfold drawStep
  rw [hdd]
  dsimp only
  rw [hlast]
  dsimp only
  simp only [hminX, hminY, jsMin0_if]
  refine ⟨⟨(pts ++ [(⟨mx - item.x, my - item.y⟩ : Position)]).map
      (fun p => (⟨p.x - jsMin 0 (mx - item.x), p.y - jsMin 0 (my - item.y)⟩ : Position)),
      c, sw, by rfl, ?_⟩, trivial, trivial⟩
  intro q hq
  rw [List.mem_map] at hq
  obtain ⟨p, hp, rfl⟩ := hq
  rcases List.mem_append.mp hp with hp' | hp'
  · have h1 := (hpts p hp').1
    have h2 := (hpts p hp').2
    have h3 := jsMin0_nonpos (mx - item.x)
    have h4 := jsMin0_nonpos (my - item.y)
    constructor <;> dsimp only <;> linarith
  · rw [List.mem_singleton] at hp'
    subst hp'
    have h3 := jsMin0_le (mx - item.x)
    have h4 := jsMin0_le (my - item.y)
    constructor <;> dsimp only <;> linarith

/-- The draw invariant holds along every pen gesture. -/
theorem drawGesture_good (nItems : ℕ) (sx sy : ℚ) (pc nid : String) :
    ∀ moves : List Position,
      goodDraw (drawGesture nItems sx sy pc nid moves) := by
  have base : goodDraw (penDownItem nItems sx sy pc nid) := by
    refine ⟨[⟨0, 0⟩], pc, 3, rfl, ?_⟩
    intro p hp
    rw [List.mem_singleton] at hp
    subst hp
    exact ⟨le_refl 0, le_refl 0⟩
  have hfold : ∀ (ms : List Position) (st : CanvasItem), goodDraw st →
      goodDraw (ms.foldl (fun it m => drawStep it m.x m.y) st) := by
    intro ms
    induction ms with
    | nil => intro st h; exact h
    | cons m ms ih =>
      intro st h
      exact ih _ (drawStep_good st m.x m.y h).1
  intro moves
  exact hfold moves _ base

/-- C5: along every pen gesture all stored stroke points stay componentwise
non-negative; each step shifts the item origin by exactly the componentwise
negative excursion (`jsMin 0`) of the newly appended relative point; and for
the spec's stroke `(0,0) → (-10,5) → (5,-20)` the origin ends shifted by
`(-10, -20)`. -/
theorem drawing_reflow (nItems : ℕ) (startX startY : ℚ) (penColor newId : String)
    (moves : List Position) (m : Position) :
    (∀ paths, (drawGesture nItems startX startY penColor newId moves).drawingData =
        some paths → ∀ path ∈ paths, ∀ p ∈ path.points, 0 ≤ p.x ∧ 0 ≤ p.y) ∧
    ((drawGesture nItems startX startY penColor newId (moves ++ [m])).x =
        (drawGesture nItems startX startY penColor newId moves).x +
          jsMin 0 (m.x - (drawGesture nItems startX startY penColor newId moves).x) ∧
      (drawGesture nItems startX startY penColor newId (moves ++ [m])).y =
        (drawGesture nItems startX startY penColor newId moves).y +
          jsMin 0 (m.y - (drawGesture nItems startX startY penColor newId moves).y)) ∧
    ((drawGesture nItems 0 0 penColor newId [⟨-10, 5⟩, ⟨5, -20⟩]).x = -10 ∧
      (drawGesture nItems 0 0 penColor newId [⟨-10, 5⟩, ⟨5, -20⟩]).y = -20) := by
  refine ⟨?_, ?_, ?_⟩
  · intro paths hp path hpath p hmem
    obtain ⟨pts, c, sw, hdd, hpts⟩ :=
      drawGesture_good nItems startX startY penColor newId moves
    rw [hdd, Option.some.injEq] at hp
    subst hp
    rw [List.mem_singleton] at hpath
    subst hpath
    exact hpts p hmem
  · have hstep := drawStep_good
      (drawGesture nItems startX startY penColor newId moves) m.x m.y
      (drawGesture_good nItems startX startY penColor newId moves)
    have happ : drawGesture nItems startX startY penColor newId (moves ++ [m]) =
        drawStep (drawGesture nItems startX startY penColor newId moves) m.x m.y := by
      unfold drawGesture
      rw [List.foldl_append]
      rfl
    rw [happ]
    exact ⟨hstep.2.1, hstep.2.2⟩
  · have g0 : goodDraw (penDownItem nItems 0 0 penColor newId) :=
      drawGesture_good nItems 0 0 penColor newId []
    have h1 := drawStep_good (penDownItem nItems 0 0 penColor newId) (-10) 5 g0
    have h2 := drawStep_good
      (drawStep (penDownItem nItems 0 0 penColor newId) (-10) 5) 5 (-20) h1.1
    have hx1 : (drawStep (penDownItem nItems 0 0 penColor newId) (-10) 5).x = -10 := by
      rw [h1.2.1]
      norm_num [penDownItem, jsMin]
    have hy1 : (drawStep (penDownItem nItems 0 0 penColor newId) (-10) 5).y = 0 := by
      rw [h1.2.2]
      norm_num [penDownItem, jsMin]
    constructor
    · show (drawStep (drawStep (penDownItem nItems 0 0 penColor newId) (-10) 5)
        5 (-20)).x = -10
      rw [h2.2.1, hx1]
      norm_num [jsMin]
    · show (drawStep (drawStep (penDownItem nItems 0 0 penColor newId) (-10) 5)
        5 (-20)).y = -20
      rw [h2.2.2, hy1]
      norm_num [jsMin]

/-- Witness for C5: the pen-down state of a gesture at the origin satisfies
the non-negativity property at its initial stored point. -/
theorem drawing_reflow_witness :
    0 ≤ ((⟨0, 0⟩ : Position)).x ∧ 0 ≤ ((⟨0, 0⟩ : Position)).y :=
  (drawing_reflow 0 0 0 "#000000" "d" [] ⟨3, 4⟩).1
    [⟨[⟨0, 0⟩], "#000000", 3⟩] rfl ⟨[⟨0, 0⟩], "#000000", 3⟩ (by simp) ⟨0, 0⟩ (by simp)


/-- The second argument is bounded by `jsMax`. -/
theorem le_jsMax_right (a b : ℚ) : b ≤ jsMax a b := by
  unfold jsMax
  split_ifs with h <;> linarith

/-- `jsMin` is bounded by its first argument. -/
theorem jsMin_le_left (a b : ℚ) : jsMin a b ≤ a := by
  unfold jsMin
  split_ifs with h <;> linarith

/-- `jsMin` is bounded by its second argument. -/
theorem jsMin_le_right (a b : ℚ) : jsMin a b ≤ b := by
  unfold jsMin
  split_ifs with h <;> linarith

/-- A `jsMax` fold dominates its start value and every traversed value. -/
theorem le_foldl_jsMax (zs : List ℚ) :
    ∀ a b : ℚ, b = a ∨ b ∈ zs → b ≤ zs.foldl jsMax a := by
  induction zs with
  | nil =>
    rintro a b (rfl | h)
    · exact le_refl _
    · cases h
  | cons z zs ih =>
    rintro a b (rfl | h)
    · exact le_trans (le_jsMax_left b z) (ih (jsMax b z) _ (Or.inl rfl))
    · rcases List.mem_cons.mp h with rfl | h'
      · exact le_trans (le_jsMax_right a b) (ih (jsMax a b) _ (Or.inl rfl))
      · exact ih (jsMax a z) b (Or.inr h')

/-- A `jsMin` fold is below its start value and every traversed value. -/
theorem foldl_jsMin_le (zs : List ℚ) :
    ∀ a b : ℚ, b = a ∨ b ∈ zs → zs.foldl jsMin a ≤ b := by
  induction zs with
  | nil =>
    rintro a b (rfl | h)
    · exact le_refl _
    · cases h
  | cons z zs ih =>
    rintro a b (rfl | h)
    · exact le_trans (ih (jsMin b z) _ (Or.inl rfl)) (jsMin_le_left b z)
    · rcases List.mem_cons.mp h with rfl | h'
      · exact le_trans (ih (jsMin a b) _ (Or.inl rfl)) (jsMin_le_right a b)
      · exact ih (jsMin a z) b (Or.inr h')

/-- Every item's zIndex is at most `maxZOf`. -/
theorem le_maxZOf (items : List CanvasItem) :
    ∀ i ∈ items, i.zIndex ≤ maxZOf items := by
  intro i hi
  cases items with
  | nil => cases hi
  | cons a as =>
    show i.zIndex ≤ (as.map fun i => i.zIndex).foldl jsMax a.zIndex
    rcases List.mem_cons.mp hi with rfl | h'
    · exact le_foldl_jsMax _ _ _ (Or.inl rfl)
    · exact le_foldl_jsMax _ _ _ (Or.inr (List.mem_map_of_mem _ h'))

/-- Every item's zIndex is at least `minZOf`. -/
theorem minZOf_le (items : List CanvasItem) :
    ∀ i ∈ items, minZOf items ≤ i.zIndex := by
  intro i hi
  cases items with
  | nil => cases hi
  | cons a as =>
    show (as.map fun i => i.zIndex).foldl jsMin a.zIndex ≤ i.zIndex
    rcases List.mem_cons.mp hi with rfl | h'
    · exact foldl_jsMin_le _ _ _ (Or.inl rfl)
    · exact foldl_jsMin_le _ _ _ (Or.inr (List.mem_map_of_mem _ h'))

/-- C9 (amended): `addItem` creations (toolbar add and emoji sticker) append
their new item with a zIndex strictly greater than every pre-existing
item's, except shapes which get one strictly less; but pen-created drawing
items get zIndex `items.length + 1` and the AI-inserted text items get
`items.length + idx + 1`, values that need not exceed every pre-existing
zIndex. -/
theorem creation_zindex (s : AppState) (ty : ItemType) (newId : String)
    (winW winH : ℚ) (exContent : Option String) (exW exH : Option ℚ)
    (nItems : ℕ) (sx sy : ℚ) (penColor pid : String)
    (ideas : List String) (idsF : ℕ → String) (offF : ℕ → ℚ × ℚ) :
    ((addItem s ty newId winW winH exContent exW exH).items =
        s.items ++ [addItemNew s ty newId winW winH exContent exW exH]) ∧
    (ty = ItemType.shape →
      ∀ i ∈ s.items,
        (addItemNew s ty newId winW winH exContent exW exH).zIndex < i.zIndex) ∧
    (ty ≠ ItemType.shape →
      ∀ i ∈ s.items,
        i.zIndex < (addItemNew s ty newId winW winH exContent exW exH).zIndex) ∧
    (penDownItem nItems sx sy penColor pid).zIndex = (nItems : ℚ) + 1 ∧
    ((aiNewItems s ideas idsF offF winW winH).map (fun i => i.zIndex) =
      ideas.enum.map (fun p => (s.items.length : ℚ) + p.1 + 1)) := by
  refine ⟨rfl, ?_, ?_, rfl, ?_⟩
  · intro hty i hi
    show (if ty = ItemType.shape then minZOf s.items - 1 else maxZOf s.items + 1) <
      i.zIndex
    rw [if_pos hty]
    have := minZOf_le s.items i hi
    linarith
  · intro hty i hi
    show i.zIndex <
      (if ty = ItemType.shape then minZOf s.items - 1 else maxZOf s.items + 1)
    rw [if_neg hty]
    have := le_maxZOf s.items i hi
    linarith
  · unfold aiNewItems
    rw [List.map_map]
    rfl

/-- Counterexample for C9 as stated: with one pre-existing item of zIndex 3,
the pen pointer-down creates a drawing item with zIndex `1 + 1 = 2`, which
is not strictly greater than 3. -/
theorem creation_zindex_counterexample :
    ¬ ((mkItem "a" ItemType.text 0 0 250 180 3).zIndex <
        (penDownItem [mkItem "a" ItemType.text 0 0 250 180 3].length
          0 0 "#000000" "d").zIndex) := by
  norm_num [mkItem, penDownItem]

/-- Witness for the amended C9: on `sampleDoc` a toolbar-added text item is
strictly above the pre-existing item `a`. -/
theorem creation_zindex_witness :
    (mkItem "a" ItemType.text 0 0 250 180 1).zIndex <
      (addItemNew sampleDoc ItemType.text "n" 1000 800 none none none).zIndex :=
  (creation_zindex sampleDoc ItemType.text "n" 1000 800 none none none
      0 0 0 "#000000" "d" [] (fun _ => "") (fun _ => (0, 0))).2.2.1
    (by decide)
    (mkItem "a" ItemType.text 0 0 250 180 1)
    (List.mem_cons_self _ _)

end Moodboard
